import Mathlib

/-!
Shallow embedding of the CertificationAgencyBlockchain node core
(Go sources: node/blockchain/{block,transaction,merkle}.go, the consensus
proof-of-work package, the chain manager, the Persona identity-verifier
client and the HTTP submission handler), together with theorems settling
the frozen specification claims.

Go strings are byte strings; they are modelled as `List Nat` with each
element a byte.  Machine integers are modelled as `Nat`/`Int` with
explicit `% 2^w` where Go overflow semantics matter.  SHA-256 is
implemented concretely (FIPS 180-4) so that hashes evaluate on concrete
inputs.
-/

/-- Go `string` (a byte string). -/
abbrev GoStr := List Nat

/-- ASCII string literal helper: codepoints of an ASCII Lean string. -/
def str (s : String) : GoStr := s.data.map Char.toNat

/-! ### Byte-level serialization primitives (`encoding/binary`, big-endian) -/

/-- Big-endian 4-byte encoding of `n % 2^32` (Go `binary.Write` of `uint32`). -/
def u32be (n : Nat) : List Nat :=
  [n / 16777216 % 256, n / 65536 % 256, n / 256 % 256, n % 256]

/-- Big-endian 8-byte encoding of `n % 2^64`. -/
def u64be (n : Nat) : List Nat :=
  [n / 72057594037927936 % 256, n / 281474976710656 % 256,
   n / 1099511627776 % 256, n / 4294967296 % 256,
   n / 16777216 % 256, n / 65536 % 256, n / 256 % 256, n % 256]

/-- Big-endian 8-byte two's-complement encoding of a Go `int64`
(Go `binary.Write` of `int64`, e.g. a `time.Time.Unix()` value). -/
def i64be (t : Int) : List Nat := u64be (t % 18446744073709551616).toNat

/-- Big-endian byte list to `Nat` (how `big.Int.SetBytes` reads a hash). -/
def beToNat (bs : List Nat) : Nat := bs.foldl (fun a b => a * 256 + b) 0

/-! ### SHA-256 (FIPS 180-4), over byte lists -/

/-- Truncate to a 32-bit word. -/
def w32 (n : Nat) : Nat := n % 4294967296

/-- 32-bit right rotation (operand assumed `< 2^32`). -/
def rotr (n x : Nat) : Nat := w32 ((x >>> n) ||| (x <<< (32 - n)))

def shaCh (x y z : Nat) : Nat := (x &&& y) ^^^ ((x ^^^ 4294967295) &&& z)

def shaMaj (x y z : Nat) : Nat := (x &&& y) ^^^ (x &&& z) ^^^ (y &&& z)

def bsig0 (x : Nat) : Nat := rotr 2 x ^^^ rotr 13 x ^^^ rotr 22 x

def bsig1 (x : Nat) : Nat := rotr 6 x ^^^ rotr 11 x ^^^ rotr 25 x

def ssig0 (x : Nat) : Nat := rotr 7 x ^^^ rotr 18 x ^^^ (x >>> 3)

def ssig1 (x : Nat) : Nat := rotr 17 x ^^^ rotr 19 x ^^^ (x >>> 10)

/-- SHA-256 round constants. -/
def shaK : List Nat :=
  [0x428a2f98, 0x71374491, 0xb5c0fbcf, 0xe9b5dba5,
   0x3956c25b, 0x59f111f1, 0x923f82a4, 0xab1c5ed5] ++
  [0xd807aa98, 0x12835b01, 0x243185be, 0x550c7dc3,
   0x72be5d74, 0x80deb1fe, 0x9bdc06a7, 0xc19bf174] ++
  [0xe49b69c1, 0xefbe4786, 0x0fc19dc6, 0x240ca1cc,
   0x2de92c6f, 0x4a7484aa, 0x5cb0a9dc, 0x76f988da] ++
  [0x983e5152, 0xa831c66d, 0xb00327c8, 0xbf597fc7,
   0xc6e00bf3, 0xd5a79147, 0x06ca6351, 0x14292967] ++
  [0x27b70a85, 0x2e1b2138, 0x4d2c6dfc, 0x53380d13,
   0x650a7354, 0x766a0abb, 0x81c2c92e, 0x92722c85] ++
  [0xa2bfe8a1, 0xa81a664b, 0xc24b8b70, 0xc76c51a3,
   0xd192e819, 0xd6990624, 0xf40e3585, 0x106aa070] ++
  [0x19a4c116, 0x1e376c08, 0x2748774c, 0x34b0bcb5,
   0x391c0cb3, 0x4ed8aa4a, 0x5b9cca4f, 0x682e6ff3] ++
  [0x748f82ee, 0x78a5636f, 0x84c87814, 0x8cc70208,
   0x90befffa, 0xa4506ceb, 0xbef9a3f7, 0xc67178f2]

/-- Group a byte stream into big-endian 32-bit words (4 bytes each). -/
def bytesToWords : List Nat → List Nat
  | b0 :: b1 :: b2 :: b3 :: rest =>
      (((b0 * 256 + b1) * 256 + b2) * 256 + b3) :: bytesToWords rest
  | _ => []

/-- SHA-256 message-schedule expansion from the 16 block words to 64 words. -/
def shaSchedule (ws : List Nat) : Array Nat :=
  (List.range 64).foldl
    (fun acc t =>
      if t < 16 then acc.push (ws.getD t 0)
      else acc.push (w32 (ssig1 (acc.getD (t - 2) 0) + acc.getD (t - 7) 0 +
                          ssig0 (acc.getD (t - 15) 0) + acc.getD (t - 16) 0)))
    #[]

/-- One SHA-256 round on the 8-word working state. -/
def shaRound (st : Nat × Nat × Nat × Nat × Nat × Nat × Nat × Nat)
    (kw : Nat × Nat) : Nat × Nat × Nat × Nat × Nat × Nat × Nat × Nat :=
  let (a, b, c, d, e, f, g, h) := st
  let (k, w) := kw
  let t1 := w32 (h + bsig1 e + shaCh e f g + k + w)
  let t2 := w32 (bsig0 a + shaMaj a b c)
  (w32 (t1 + t2), a, b, c, w32 (d + t1), e, f, g)

/-- SHA-256 compression of one 64-byte block into the hash state. -/
def shaCompress (H : Nat × Nat × Nat × Nat × Nat × Nat × Nat × Nat)
    (block : List Nat) : Nat × Nat × Nat × Nat × Nat × Nat × Nat × Nat :=
  let (h0, h1, h2, h3, h4, h5, h6, h7) := H
  let W := shaSchedule (bytesToWords block)
  let (a, b, c, d, e, f, g, h) := (shaK.zip W.toList).foldl shaRound H
  (w32 (h0 + a), w32 (h1 + b), w32 (h2 + c), w32 (h3 + d),
   w32 (h4 + e), w32 (h5 + f), w32 (h6 + g), w32 (h7 + h))

/-- SHA-256 padding: append `0x80`, zero bytes, then the 64-bit bit length. -/
def shaPad (msg : List Nat) : List Nat :=
  let L := msg.length
  let k := (120 - (L + 1) % 64) % 64
  msg ++ [128] ++ List.replicate k 0 ++ u64be (8 * L)

/-- Split a byte stream into 64-byte chunks.  The `fuel` argument makes
the recursion structural; each step consumes at least one byte, so
`l.length` is always enough fuel. -/
def chunksAux : Nat → List Nat → List (List Nat)
  | _, [] => []
  | 0, _ :: _ => []
  | fuel + 1, a :: as => ((a :: as).take 64) :: chunksAux fuel ((a :: as).drop 64)

def chunks64 (l : List Nat) : List (List Nat) := chunksAux l.length l

/-- Render the 8-word hash state as 32 big-endian bytes. -/
def stateToBytes (t : Nat × Nat × Nat × Nat × Nat × Nat × Nat × Nat) : List Nat :=
  u32be t.1 ++ u32be t.2.1 ++ u32be t.2.2.1 ++ u32be t.2.2.2.1 ++
  u32be t.2.2.2.2.1 ++ u32be t.2.2.2.2.2.1 ++ u32be t.2.2.2.2.2.2.1 ++
  u32be t.2.2.2.2.2.2.2

/-- SHA-256 digest (32 bytes) of a byte list. -/
def sha256 (msg : List Nat) : List Nat :=
  stateToBytes ((chunks64 (shaPad msg)).foldl shaCompress
    (0x6a09e667, 0xbb67ae85, 0x3c6ef372, 0xa54ff53a,
     0x510e527f, 0x9b05688c, 0x1f83d9ab, 0x5be0cd19))

/-! ### Lowercase hex encoding/decoding (`encoding/hex`) -/

/-- ASCII code of the lowercase hex digit for `d < 16`. -/
def hexDigit (d : Nat) : Nat := if d < 10 then 48 + d else 87 + d

/-- Lowercase hex rendering of a byte list (`hex.EncodeToString`). -/
def hexEncode (bs : List Nat) : GoStr :=
  (bs.map (fun b => [hexDigit (b / 16), hexDigit (b % 16)])).flatten

/-- Value of one hex digit character, `none` if not a hex digit. -/
def hexVal (c : Nat) : Option Nat :=
  if 48 ≤ c ∧ c ≤ 57 then some (c - 48)
  else if 97 ≤ c ∧ c ≤ 102 then some (c - 87)
  else if 65 ≤ c ∧ c ≤ 70 then some (c - 55)
  else none

/-- `hex.DecodeString`: decodes hex pairs, returning the bytes decoded
before the first malformed pair (the Go callers ignore the error value). -/
def hexDecode : GoStr → List Nat
  | c1 :: c2 :: rest =>
      match hexVal c1, hexVal c2 with
      | some a, some b => (16 * a + b) :: hexDecode rest
      | _, _ => []
  | _ => []

/-! ### Transaction (`node/blockchain/transaction.go`) -/

/-- A certification transaction. `Datetime` is the Unix-seconds value of
the Go `time.Time` (all hashing and serialization use `.Unix()`). -/
structure Transaction where
  ID : GoStr
  PublicKey : GoStr
  Name : GoStr
  Surname : GoStr
  InquiryID : GoStr
  Datetime : Int
  Signature : GoStr
  Status : GoStr
deriving DecidableEq, Repr

/-- `Transaction.Hash`: SHA-256 over publicKey‖name‖surname‖inquiryID‖
int64-BE datetime, as raw bytes. -/
def txHashBytes (tx : Transaction) : List Nat :=
  sha256 (tx.PublicKey ++ tx.Name ++ tx.Surname ++ tx.InquiryID ++ i64be tx.Datetime)

/-- `Transaction.Hash` rendered as lowercase hex (the Go return value). -/
def txHash (tx : Transaction) : GoStr := hexEncode (txHashBytes tx)

/-- `NewTransaction`: builds the record with `Status = "pending"` and
`ID = tx.Hash()`. -/
def newTransaction (publicKey name surname inquiryID : GoStr) (datetime : Int)
    (signature : GoStr) : Transaction :=
  let tx : Transaction :=
    { ID := [], PublicKey := publicKey, Name := name, Surname := surname,
      InquiryID := inquiryID, Datetime := datetime, Signature := signature,
      Status := str "pending" }
  { tx with ID := txHash tx }

/-- `Transaction.Validate` at wall-clock time `now` (Unix seconds):
non-empty fields, `time.Since(datetime) ≤ 24h`, and datetime not after
`now + 5min`. -/
def txValidate (now : Int) (tx : Transaction) : Bool :=
  !tx.PublicKey.isEmpty && !tx.Name.isEmpty && !tx.Surname.isEmpty &&
  !tx.InquiryID.isEmpty && !tx.Signature.isEmpty &&
  decide (now - tx.Datetime ≤ 86400) && decide (tx.Datetime ≤ now + 300)

/-- Length-prefixed string: `uint32` big-endian length then the bytes
(the `writeString` closure in `Transaction.Serialize`). -/
def lenPrefixed (s : GoStr) : List Nat := u32be s.length ++ s

/-- `Transaction.Serialize`. -/
def serializeTransaction (tx : Transaction) : List Nat :=
  lenPrefixed tx.ID ++ lenPrefixed tx.PublicKey ++ lenPrefixed tx.Name ++
  lenPrefixed tx.Surname ++ lenPrefixed tx.InquiryID ++ i64be tx.Datetime ++
  lenPrefixed tx.Signature ++ lenPrefixed tx.Status

/-- The `readString` closure in `DeserializeTransaction`: a 4-byte BE
length, then that many bytes.  `bytes.Reader.Read` checks exhaustion
before looking at the buffer, so it fails whenever no bytes remain —
even for a zero-length read; otherwise a short read is silently
zero-padded to the requested length (Go allocates the buffer
zero-filled and converts all of it to the string). -/
def readLenString (data : List Nat) : Option (GoStr × List Nat) :=
  match data with
  | b0 :: b1 :: b2 :: b3 :: rest =>
      let n := ((b0 * 256 + b1) * 256 + b2) * 256 + b3
      if rest.isEmpty then none
      else some (rest.take n ++ List.replicate (n - rest.length) 0, rest.drop n)
  | _ => none

/-- Read an `int64` (8 bytes BE, two's complement). -/
def readInt64 (data : List Nat) : Option (Int × List Nat) :=
  match data with
  | b0 :: b1 :: b2 :: b3 :: b4 :: b5 :: b6 :: b7 :: rest =>
      let n := beToNat [b0, b1, b2, b3, b4, b5, b6, b7]
      some (if n < 9223372036854775808 then (n : Int)
            else (n : Int) - 18446744073709551616, rest)
  | _ => none

/-- `DeserializeTransaction`. -/
def deserializeTransaction (data : List Nat) : Option Transaction := do
  let (id0, r1) ← readLenString data
  let (pk, r2) ← readLenString r1
  let (nm, r3) ← readLenString r2
  let (sn, r4) ← readLenString r3
  let (inq, r5) ← readLenString r4
  let (ts, r6) ← readInt64 r5
  let (sig, r7) ← readLenString r6
  let (st, _) ← readLenString r7
  pure { ID := id0, PublicKey := pk, Name := nm, Surname := sn,
         InquiryID := inq, Datetime := ts, Signature := sig, Status := st }

/-! ### Block (`node/blockchain/block.go`) -/

structure BlockHeader where
  Version : Nat
  PrevBlockHash : GoStr
  MerkleRoot : GoStr
  Timestamp : Int
  Bits : Nat
  Nonce : Nat
  Height : Nat
deriving DecidableEq, Repr

structure Block where
  Header : BlockHeader
  Transactions : List Transaction
deriving DecidableEq, Repr

/-- The bytes `Block.Hash` feeds to SHA-256: version (u32 BE), the
`PrevBlockHash` and `MerkleRoot` strings written verbatim (their hex
characters, not decoded bytes), timestamp (`Unix()` as int64 BE), bits
and nonce (u32 BE).  The `Height` field is not written. -/
def headerHashInput (h : BlockHeader) : List Nat :=
  u32be h.Version ++ h.PrevBlockHash ++ h.MerkleRoot ++
  i64be h.Timestamp ++ u32be h.Bits ++ u32be h.Nonce

/-- `Block.Hash`: lowercase hex of the SHA-256 of the header bytes. -/
def blockHash (b : Block) : GoStr := hexEncode (sha256 (headerHashInput b.Header))

/-- One level of the `Block.CalculateMerkleRoot` loop: pairs are hashed,
a trailing odd element is paired with itself. -/
def merkleCombine : List (List Nat) → List (List Nat)
  | [] => []
  | [x] => [sha256 (x ++ x)]
  | x :: y :: rest => sha256 (x ++ y) :: merkleCombine rest

/-- The `for len(hashes) > 1` loop of `Block.CalculateMerkleRoot`.  Each
iteration at least halves the list, so `hs.length` is enough fuel. -/
def merkleLoopAux : Nat → List (List Nat) → List Nat
  | _, [] => []
  | _, [h] => h
  | 0, _ :: _ :: _ => []
  | fuel + 1, x :: y :: rest => merkleLoopAux fuel (merkleCombine (x :: y :: rest))

def merkleLoop (hs : List (List Nat)) : List Nat := merkleLoopAux hs.length hs

/-- `Block.CalculateMerkleRoot` on a transaction list: empty string for
no transactions; otherwise leaves are the hex-decoded `tx.Hash()` values
and the tree is folded with last-element duplication per level. -/
def calculateMerkleRoot (txs : List Transaction) : GoStr :=
  match txs with
  | [] => []
  | _ => hexEncode (merkleLoop (txs.map (fun tx => hexDecode (txHash tx))))

/-- `Block.Validate` at wall-clock `now`: non-empty body, stored Merkle
root equals the recomputed one, and every transaction passes
`Transaction.Validate`.  (Signatures are not checked here.) -/
def blockValidate (now : Int) (b : Block) : Bool :=
  !b.Transactions.isEmpty &&
  (calculateMerkleRoot b.Transactions == b.Header.MerkleRoot) &&
  b.Transactions.all (txValidate now)

/-- `NewBlock`: version 1, timestamp `now`, Merkle root computed, bits
and nonce zero. -/
def newBlock (txs : List Transaction) (prevBlockHash : GoStr) (height : Nat)
    (now : Int) : Block :=
  { Header := { Version := 1, PrevBlockHash := prevBlockHash,
                MerkleRoot := calculateMerkleRoot txs, Timestamp := now,
                Bits := 0, Nonce := 0, Height := height },
    Transactions := txs }

/-- `GenesisBlock` created at wall-clock `now`: the sentinel transaction
with literal `ID = "genesis"`, a 40-zero public key and empty signature,
in a height-0 block with `prev = "0"`. -/
def genesisTx (now : Int) : Transaction :=
  { ID := str "genesis", PublicKey := List.replicate 40 48,
    Name := str "Genesis", Surname := str "Block", InquiryID := str "genesis",
    Datetime := now, Signature := [], Status := [] }

def genesisBlock (now : Int) : Block := newBlock [genesisTx now] (str "0") 0 now

/-! ### Merkle tree (`node/blockchain/merkle.go`) -/

/-- A node of the Merkle tree: nullable children and a hex hash string. -/
inductive MerkleNode where
  | mk (left right : Option MerkleNode) (hash : GoStr)

def MerkleNode.hash : MerkleNode → GoStr
  | .mk _ _ h => h

/-- `NewMerkleNode`: a leaf hashes its data; an inner node hashes the
concatenation of the hex-decoded child hashes. -/
def newMerkleNode (left right : Option MerkleNode) (data : List Nat) : MerkleNode :=
  match left, right with
  | none, none => .mk none none (hexEncode (sha256 data))
  | _, _ =>
      let lb := match left with | some l => hexDecode l.hash | none => []
      let rb := match right with | some r => hexDecode r.hash | none => []
      .mk left right (hexEncode (sha256 (lb ++ rb)))

/-- One level of the `NewMerkleTree` loop: consecutive pairs are joined
(the list is kept even by padding, so the odd case is unreachable). -/
def treeLevel : List MerkleNode → List MerkleNode
  | [] => []
  | [_] => []
  | a :: b :: rest => newMerkleNode (some a) (some b) [] :: treeLevel rest

/-- Duplicate the last node when a level of more than one node is odd. -/
def padIfOdd (l : List MerkleNode) : List MerkleNode :=
  if l.length > 1 ∧ l.length % 2 = 1 then
    match l.getLast? with
    | some x => l ++ [x]
    | none => l
  else l

/-- The `for len(nodes) > 1` loop of `NewMerkleTree`: build the next
level, pad it if odd, repeat; returns the root.  Each iteration shrinks
a list of two or more nodes, so `nodes.length` is enough fuel. -/
def treeLoopAux : Nat → List MerkleNode → Option MerkleNode
  | _, [] => none
  | _, [n] => some n
  | 0, _ :: _ :: _ => none
  | fuel + 1, a :: b :: rest => treeLoopAux fuel (padIfOdd (treeLevel (a :: b :: rest)))

def treeLoop (nodes : List MerkleNode) : Option MerkleNode :=
  treeLoopAux nodes.length nodes

/-- `NewMerkleTree` from leaf data blobs: leaves are `NewMerkleNode`
leaf nodes, the list is padded to even length, then folded. -/
def newMerkleTree (data : List (List Nat)) : Option MerkleNode :=
  let nodes := data.map (fun d => newMerkleNode none none d)
  let nodes := if nodes.length % 2 ≠ 0 then
    (match nodes.getLast? with
     | some x => nodes ++ [x]
     | none => nodes)
  else nodes
  treeLoop nodes

/-- `CalculateMerkleRootFromTransactions`: leaves are the serialized
transaction bytes (hashed by the leaf constructor). -/
def calculateMerkleRootFromTransactions (txs : List Transaction) : GoStr :=
  match txs with
  | [] => []
  | _ =>
      match newMerkleTree (txs.map serializeTransaction) with
      | some root => root.hash
      | none => []

/-! ### Proof of work (consensus package) -/

/-- `NewProofOfWork` target: `1 << (256 − bits)` (callers use
`1 ≤ bits ≤ 32`, so the `uint` subtraction never wraps). -/
def powTarget (bits : Nat) : Nat := 2 ^ (256 - bits)

/-- `ProofOfWork.Validate`: the header hash (the same bytes as
`Block.Hash`, which exclude `Height`) read as a big-endian integer must
be strictly below the target.  The reflective header extraction in the
Go source is modelled as succeeding on the node's block type. -/
def powValidate (bits : Nat) (b : Block) : Bool :=
  beToNat (sha256 (headerHashInput b.Header)) < powTarget bits

/-- `consensus.CalculateDifficulty`: increment when blocks arrived in
less than half the target time (capped at 32), decrement when in more
than twice the target time (floored at 1), otherwise hold.  Go `int64`
division truncates toward zero. -/
def calculateDifficulty (currentBits : Nat) (actualTime targetTime : Int) : Nat :=
  if actualTime < Int.tdiv targetTime 2 then
    (if currentBits < 32 then currentBits + 1 else currentBits)
  else if actualTime > targetTime * 2 then
    (if currentBits > 1 then currentBits - 1 else currentBits)
  else currentBits

/-! ### Chain manager (`Blockchain` in the blockchain package) -/

def U64 : Nat := 18446744073709551616

/-- The chain-manager state: the in-memory block list, the reported
height, the mempool (`miningPool`), the difficulty field written into
mined headers, and the bits baked into the `ProofOfWork` instance
(`NewProofOfWork(16)`; `SetDifficulty` is never called). -/
structure Chain where
  blocks : List Block
  currentHeight : Nat
  miningPool : List Transaction
  difficulty : Nat
  powBits : Nat
deriving DecidableEq, Repr

/-- The state of a fresh `Blockchain` value before any block is added:
empty chain, height 0, initial difficulty 16. -/
def initialChain : Chain :=
  { blocks := [], currentHeight := 0, miningPool := [], difficulty := 16, powBits := 16 }

inductive TxErr where
  | validateErr | invalidSignature | inquiryExists | alreadyInPool
deriving DecidableEq, Repr

inductive BlockErr where
  | invalidBlock | invalidPrevHash | invalidHeight | invalidPow | saveFailed
deriving DecidableEq, Repr

/-- `Blockchain.inquiryExists`: the inquiry id occurs in some accepted
block or in the mining pool. -/
def inquiryExists (st : Chain) (inquiryID : GoStr) : Bool :=
  st.blocks.any (fun b => b.Transactions.any (fun tx => tx.InquiryID == inquiryID)) ||
  st.miningPool.any (fun tx => tx.InquiryID == inquiryID)

/-- `Blockchain.AddTransaction` at wall-clock `now`; `sigOk` is the RSA
signature verifier (`crypto.VerifyRSASignature`), kept as a parameter
since it wraps library crypto.  Returns the new state and the error. -/
def addTransaction (sigOk : Transaction → Bool) (now : Int) (st : Chain)
    (tx : Transaction) : Chain × Option TxErr :=
  if !txValidate now tx then (st, some .validateErr)
  else if !sigOk tx then (st, some .invalidSignature)
  else if inquiryExists st tx.InquiryID then (st, some .inquiryExists)
  else if st.miningPool.any (fun poolTx => poolTx.ID == tx.ID) then
    (st, some .alreadyInPool)
  else ({ st with miningPool := st.miningPool ++ [tx] }, none)

/-- Go `uint64` decrement with wraparound: `n - 1` for positive `n`,
`2^64 − 1` for zero (equal to `(n + 2^64 − 1) % 2^64` whenever
`n < 2^64`). -/
def u64dec (n : Nat) : Nat := if n = 0 then U64 - 1 else n - 1

/-- The tail of `Blockchain.AddBlock` after the prev-hash/height checks:
proof-of-work validation, then persistence.  On store success the block
is appended, `currentHeight` is set to the block's height and mined
transactions are removed from the pool; on store failure the in-memory
append is rolled back but `currentHeight` is decremented from the block
height (u64 wraparound). -/
def addBlockPow (saveOk : Bool) (st : Chain) (b : Block) : Chain × Option BlockErr :=
  if !powValidate st.powBits b then (st, some .invalidPow)
  else if saveOk then
    ({ st with
        blocks := st.blocks ++ [b],
        currentHeight := b.Header.Height,
        miningPool := st.miningPool.filter
          (fun poolTx => !b.Transactions.any (fun minedTx => minedTx.ID == poolTx.ID)) },
     none)
  else
    ({ st with currentHeight := u64dec b.Header.Height }, some .saveFailed)

/-- `Blockchain.AddBlock` at wall-clock `now` with store outcome
`saveOk`: structural validation, then — only when the chain is
non-empty — the prev-hash and height checks, then `addBlockPow`. -/
def addBlock (now : Int) (saveOk : Bool) (st : Chain) (b : Block) :
    Chain × Option BlockErr :=
  if !blockValidate now b then (st, some .invalidBlock)
  else
    match st.blocks.getLast? with
    | some lastBlock =>
        if b.Header.PrevBlockHash ≠ blockHash lastBlock then
          (st, some .invalidPrevHash)
        else if b.Header.Height ≠ (lastBlock.Header.Height + 1) % U64 then
          (st, some .invalidHeight)
        else addBlockPow saveOk st b
    | none => addBlockPow saveOk st b

/-- `Blockchain.adjustDifficulty`: the Go body only writes a log line;
the state, including both difficulty fields, is returned unchanged. -/
def adjustDifficulty (st : Chain) : Chain := st

/-- The candidate block `mineBlock` builds: up to 1000 pool
transactions, linked to the tip, with `Bits := difficulty` and the
nonce found by the proof-of-work search. -/
def candidateBlock (st : Chain) (ts : Int) (nonce : Nat) (latestBlock : Block) : Block :=
  let nb := newBlock (st.miningPool.take 1000) (blockHash latestBlock)
    ((latestBlock.Header.Height + 1) % U64) ts
  { nb with Header := { nb.Header with Bits := st.difficulty, Nonce := nonce } }

/-- `Blockchain.mineBlock` at wall-clock `now`: copy up to 1000 pool
transactions, build a block on the tip with `Bits := difficulty`, search
for a nonce (the successful nonce is the `nonce` parameter; the branch
where the proof-of-work search fails leaves the state unchanged), then
`AddBlock` and, after every 2016th height, `adjustDifficulty`. -/
def mineStep (now ts : Int) (nonce : Nat) (saveOk : Bool) (st : Chain) : Chain :=
  let transactions := st.miningPool.take 1000
  if transactions.isEmpty then st
  else
    match st.blocks.getLast? with
    | none => st
    | some latestBlock =>
        let nb := candidateBlock st ts nonce latestBlock
        if powValidate st.powBits nb then
          match addBlock now saveOk st nb with
          | (st', none) =>
              if nb.Header.Height % 2016 = 0 then adjustDifficulty st' else st'
          | (st', some _) => st'
        else st

/-! ### Persona identity verifier (api package) -/

/-- The attributes of a fetched inquiry (`data.attributes` of the
Persona response). `createdAt` is Unix seconds. -/
structure InquiryAttrs where
  status : GoStr
  nameFirst : GoStr
  nameLast : GoStr
  createdAt : Int
deriving DecidableEq, Repr

structure VerificationResult where
  Status : GoStr
  FirstName : GoStr
  LastName : GoStr
  CreatedAt : Int
  Verified : Bool
deriving DecidableEq, Repr

/-- `PersonaClient.VerifyIdentity` on a successfully fetched inquiry, at
wall-clock `now`: status must be completed/approved; the name comparison
runs only when both expected strings are non-empty; the inquiry must be
no older than 24 hours.  `Verified` is true only when all passes. -/
def personaVerifyIdentity (inq : InquiryAttrs) (expectedName expectedSurname : GoStr)
    (now : Int) : VerificationResult :=
  let result : VerificationResult :=
    { Status := inq.status, FirstName := inq.nameFirst, LastName := inq.nameLast,
      CreatedAt := inq.createdAt, Verified := false }
  if inq.status ≠ str "completed" ∧ inq.status ≠ str "approved" then result
  else if (expectedName ≠ [] ∧ expectedSurname ≠ []) ∧
      (inq.nameFirst ≠ expectedName ∨ inq.nameLast ≠ expectedSurname) then result
  else if now - inq.createdAt > 86400 then result
  else { result with Verified := true }

/-- `MockPersonaClient.VerifyIdentity`: status must be
completed/approved and the names must match exactly; there is no age
check. -/
def mockVerifyIdentity (inq : InquiryAttrs) (expectedName expectedSurname : GoStr) :
    VerificationResult :=
  let result : VerificationResult :=
    { Status := inq.status, FirstName := inq.nameFirst, LastName := inq.nameLast,
      CreatedAt := inq.createdAt, Verified := false }
  if (inq.status = str "completed" ∨ inq.status = str "approved") ∧
      inq.nameFirst = expectedName ∧ inq.nameLast = expectedSurname then
    { result with Verified := true }
  else result

/-! ### HTTP submission handler (`Server.handleSubmitCertification`) -/

/-- A decoded submission request body. `datetime` is `none` when the
field was absent (the Go zero `time.Time`). -/
structure SubmitRequest where
  publicKey : GoStr
  name : GoStr
  surname : GoStr
  inquiryID : GoStr
  datetime : Option Int
  signature : GoStr
deriving DecidableEq, Repr

/-- The transaction the handler builds from a request: the datetime
defaults to `now` when absent, then `NewTransaction`. -/
def reqToTx (now : Int) (req : SubmitRequest) : Transaction :=
  newTransaction req.publicKey req.name req.surname req.inquiryID
    (req.datetime.getD now) req.signature

/-- `handleSubmitCertification` on a decoded body: default the datetime
to `now`, build the transaction, validate, verify the signature, verify
identity (the Persona call is the `persona` parameter: inquiry id and
expected names to a result; a transport failure is `none`), then
`AddTransaction`.  Returns the HTTP status code and the new chain state:
400 for validation/signature/identity failures, 500 for any
`AddTransaction` error, 200 on success. -/
def handleSubmitCertification (sigOk : Transaction → Bool)
    (persona : GoStr → GoStr → GoStr → Option VerificationResult)
    (now : Int) (st : Chain) (req : SubmitRequest) : Nat × Chain :=
  let tx := reqToTx now req
  if !txValidate now tx then (400, st)
  else if !sigOk tx then (400, st)
  else
    match persona req.inquiryID req.name req.surname with
    | none => (400, st)
    | some result =>
        if !result.Verified then (400, st)
        else
          match addTransaction sigOk now st tx with
          | (st', none) => (200, st')
          | (st', some _) => (500, st')

/-- The state `NewBlockchain` aims to leave behind on a fresh node, and
the one `loadFromDB` restores for a store holding exactly the genesis
block created at wall-clock `ts`: the singleton block list,
`currentHeight = len(blocks) − 1 = 0`, the constructor's difficulty 16
and an empty mining pool. -/
def genesisChain (ts : Int) : Chain :=
  { blocks := [genesisBlock ts], currentHeight := 0, miningPool := [],
    difficulty := 16, powBits := 16 }

/-! ### Reachability -/

/-- States reachable through the public mutation surface: transaction
submission (`AddTransaction`) and block acceptance (`AddBlock`, the
entry point used both for locally mined blocks and for blocks pulled
from peers during synchronization). -/
inductive ReachFull : Chain → Prop where
  | init : ReachFull initialChain
  | addTx (sigOk : Transaction → Bool) (now : Int) (tx : Transaction) {st : Chain} :
      ReachFull st → ReachFull (addTransaction sigOk now st tx).1
  | acceptBlock (now : Int) (saveOk : Bool) (b : Block) {st : Chain} :
      ReachFull st → ReachFull (addBlock now saveOk st b).1

/-- States reachable from a genesis-rooted chain when blocks are only
ever produced by the node's own mining loop (`mineBlock`), never
accepted raw from a peer. -/
inductive ReachMine : Chain → Prop where
  | init (ts : Int) : ReachMine (genesisChain ts)
  | addTx (sigOk : Transaction → Bool) (now : Int) (tx : Transaction) {st : Chain} :
      ReachMine st → ReachMine (addTransaction sigOk now st tx).1
  | mine (now ts : Int) (nonce : Nat) (saveOk : Bool) {st : Chain} :
      ReachMine st → ReachMine (mineStep now ts nonce saveOk st)

/-! ### Concrete witness data

Two single-transaction blocks that pass all `AddBlock` checks at
difficulty 16 (their header hashes have 16 leading zero bits), sharing
the inquiry id `"inq-1"`.  The wall-clock instant used throughout is
`tN = 1700000000`. -/

def tN : Int := 1700000000

def txA : Transaction :=
  newTransaction (str "pkA") (str "Alice") (str "Doe") (str "inq-1") tN (str "sigA")

def txB : Transaction :=
  newTransaction (str "pkB") (str "Bob") (str "Stone") (str "inq-1") tN (str "sigB")

def blkA : Block :=
  { Header := { Version := 1, PrevBlockHash := str "0", MerkleRoot := txHash txA,
                Timestamp := tN, Bits := 16, Nonce := 140635, Height := 0 },
    Transactions := [txA] }

def blkB : Block :=
  { Header := { Version := 1, PrevBlockHash := blockHash blkA, MerkleRoot := txHash txB,
                Timestamp := tN, Bits := 16, Nonce := 27785, Height := 1 },
    Transactions := [txB] }

/-- The chain state after accepting `blkA` on a fresh chain. -/
def stA : Chain := (addBlock tN true initialChain blkA).1

/-- The chain state after additionally accepting `blkB` (a peer block
whose transaction reuses the inquiry id already recorded in `blkA`). -/
def stAB : Chain := (addBlock tN true stA blkB).1

/-! ### Further definitions used by the claim theorems -/

/-- Zero-pad (or truncate) a byte list to exactly 32 bytes, as
`Block.Serialize` does for decoded hash fields. -/
def pad32 (bs : List Nat) : List Nat :=
  (bs ++ List.replicate (32 - bs.length) 0).take 32

/-- Modelled from the spec: the header serialization the specification
describes for the block hash — "SHA-256 over the header fields in the
stated order and widths": u32 version, the two hashes as 32-byte values,
the second-resolution timestamp, u32 bits, u32 nonce, u64 height.  Used
only to compare the claimed hash preimage with the implemented one. -/
def claimHeaderBytes (h : BlockHeader) : List Nat :=
  u32be h.Version ++ pad32 (hexDecode h.PrevBlockHash) ++
  pad32 (hexDecode h.MerkleRoot) ++ i64be h.Timestamp ++
  u32be h.Bits ++ u32be h.Nonce ++ u64be h.Height

/-- Modelled from the spec: the block hash the claim describes (lowercase
hex of the SHA-256 of `claimHeaderBytes`). -/
def claimBlockHash (b : Block) : GoStr := hexEncode (sha256 (claimHeaderBytes b.Header))

/-- Number of occurrences of the inquiry id among the transactions of
all accepted blocks. -/
def chainCount (q : GoStr) (st : Chain) : Nat :=
  (st.blocks.map (fun b => b.Transactions.countP (fun tx => tx.InquiryID == q))).sum

/-- Number of occurrences of the inquiry id in the mining pool. -/
def poolCount (q : GoStr) (st : Chain) : Nat :=
  st.miningPool.countP (fun tx => tx.InquiryID == q)

/-- `blkB` with its height field rewritten to 99: the header hash is
unchanged (height is not hashed), so it still passes proof of work. -/
def blkWild : Block :=
  { blkB with Header := { blkB.Header with Height := 99 } }

/-- A submission for inquiry `"inq-1"` — already recorded in `blkA`. -/
def reqDup : SubmitRequest :=
  { publicKey := str "pkC", name := str "Carol", surname := str "Jones",
    inquiryID := str "inq-1", datetime := some tN, signature := str "sigC" }

/-- A Persona oracle that verifies every inquiry. -/
def personaOK : GoStr → GoStr → GoStr → Option VerificationResult :=
  fun _ name surname =>
    some { Status := str "completed", FirstName := name, LastName := surname,
           CreatedAt := tN, Verified := true }

/-- A chain state whose pool holds a transaction with the same id as the
one `reqDup` builds but a different inquiry id, and whose chain and pool
do not contain the inquiry id `"inq-1"` itself. -/
def stPoolClash : Chain :=
  { initialChain with
      miningPool := [{ reqToTx tN reqDup with InquiryID := str "inq-9" }] }

/-- A completed inquiry for John Doe created at time 0. -/
def inqJohn : InquiryAttrs :=
  { status := str "completed", nameFirst := str "John", nameLast := str "Doe",
    createdAt := 0 }

/-- `txA` with its `Status` field emptied: every field check of
`Transaction.Validate` still passes (the status is never validated). -/
def txES : Transaction := { txA with Status := [] }

/-! ### Supporting lemmas -/

set_option maxRecDepth 10000

theorem mem_u32be_lt (n : Nat) : ∀ b ∈ u32be n, b < 256 := by
  intro b hb
  simp only [u32be, List.mem_cons, List.not_mem_nil, or_false] at hb
  rcases hb with rfl | rfl | rfl | rfl <;> omega

theorem mem_sha256_lt (msg : List Nat) : ∀ b ∈ sha256 msg, b < 256 := by
  intro b hb
  unfold sha256 stateToBytes at hb
  simp only [List.mem_append] at hb
  rcases hb with ((((((h | h) | h) | h) | h) | h) | h) | h <;>
    exact mem_u32be_lt _ _ h

theorem hexVal_hexDigit : ∀ d < 16, hexVal (hexDigit d) = some d := by decide

theorem hexDecode_hexEncode {bs : List Nat} (h : ∀ b ∈ bs, b < 256) :
    hexDecode (hexEncode bs) = bs := by
  induction bs with
  | nil => rfl
  | cons b rest ih =>
      have hb : b < 256 := h b (List.mem_cons_self b rest)
      have h1 : hexVal (hexDigit (b / 16)) = some (b / 16) :=
        hexVal_hexDigit _ (by omega)
      have h2 : hexVal (hexDigit (b % 16)) = some (b % 16) :=
        hexVal_hexDigit _ (by omega)
      have hrest : hexDecode (hexEncode rest) = rest :=
        ih (fun x hx => h x (List.mem_cons_of_mem b hx))
      simp only [hexEncode, List.map_cons, List.flatten_cons, List.cons_append,
        List.nil_append] at hrest ⊢
      simp only [hexDecode, h1, h2]
      rw [hrest]
      congr 1
      omega

theorem calculateMerkleRoot_singleton (tx : Transaction) :
    calculateMerkleRoot [tx] = txHash tx := by
  show hexEncode (merkleLoop [hexDecode (txHash tx)]) = txHash tx
  show hexEncode (hexDecode (txHash tx)) = txHash tx
  show hexEncode (hexDecode (hexEncode (txHashBytes tx))) = txHash tx
  have hmem : ∀ b ∈ txHashBytes tx, b < 256 := mem_sha256_lt _
  rw [hexDecode_hexEncode hmem]
  rfl

/-! ### Claim theorems -/

/-- C2 (evidence for the code bug): `adjustDifficulty` — the only
retarget hook, invoked after every 2016th mined block — returns the
state unchanged, so the difficulty is never recomputed or applied, while
the dead function `CalculateDifficulty` does implement the claimed
arithmetic: +1 when the actual time is below half the target (clamped at
32), −1 when above twice the target (clamped at 1), hold otherwise. -/
theorem c2_adjustDifficulty_is_noop :
    (∀ st : Chain, adjustDifficulty st = st) ∧
    calculateDifficulty 16 604799 1209600 = 17 ∧
    calculateDifficulty 16 2419201 1209600 = 15 ∧
    calculateDifficulty 16 604800 1209600 = 16 ∧
    calculateDifficulty 32 604799 1209600 = 32 ∧
    calculateDifficulty 1 2419201 1209600 = 1 :=
  ⟨fun _ => rfl, by decide, by decide, by decide, by decide, by decide⟩

/-- C3 (counterexample): the implemented block hash differs from the
spec-described digest (32-byte hash fields, height included) on the
concrete block `blkA`. -/
theorem c3_counterexample : blockHash blkA ≠ claimBlockHash blkA := by decide

/-- C3 (amended): the block hash is SHA-256 over version, the
prev-block-hash and Merkle-root hex strings written verbatim, timestamp,
bits and nonce; two blocks agreeing on those six header fields hash
identically regardless of their height fields. -/
theorem c3_blockHash_ignores_height : ∀ b1 b2 : Block,
    b1.Header.Version = b2.Header.Version →
    b1.Header.PrevBlockHash = b2.Header.PrevBlockHash →
    b1.Header.MerkleRoot = b2.Header.MerkleRoot →
    b1.Header.Timestamp = b2.Header.Timestamp →
    b1.Header.Bits = b2.Header.Bits →
    b1.Header.Nonce = b2.Header.Nonce →
    blockHash b1 = blockHash b2 := by
  intro b1 b2 h1 h2 h3 h4 h5 h6
  unfold blockHash headerHashInput
  rw [h1, h2, h3, h4, h5, h6]

/-- C3 (witness): `blkB` and its height-99 rewrite share a block hash. -/
theorem c3_blockHash_ignores_height_witness :
    blkB.Header.Height ≠ blkWild.Header.Height ∧ blockHash blkB = blockHash blkWild :=
  ⟨by decide, c3_blockHash_ignores_height blkB blkWild rfl rfl rfl rfl rfl rfl⟩

/-- C4 (counterexample): the live client reports `verified = true` when
both expected names are empty even though the recorded names differ from
them, and the mock reports `verified = true` regardless of the inquiry
age (here checked 1 000 000 s after creation, far beyond 24 h). -/
theorem c4_counterexample :
    (personaVerifyIdentity inqJohn [] [] 0).Verified = true ∧
    inqJohn.nameFirst ≠ ([] : GoStr) ∧
    (mockVerifyIdentity inqJohn (str "John") (str "Doe")).Verified = true ∧
    (1000000 : Int) - inqJohn.createdAt > 86400 := by decide

/-- C4 (amended): the live client sets `verified = true` iff the status
is completed/approved, the names match whenever both expected strings
are non-empty (the check is skipped otherwise), and the inquiry is at
most 24 h old; the mock requires the status and an exact name match but
performs no age check at all. -/
theorem c4_verify_identity_characterization :
    ∀ (inq : InquiryAttrs) (en es : GoStr) (now : Int),
    ((personaVerifyIdentity inq en es now).Verified = true ↔
      ((inq.status = str "completed" ∨ inq.status = str "approved") ∧
       ((en ≠ [] ∧ es ≠ []) → inq.nameFirst = en ∧ inq.nameLast = es) ∧
       now - inq.createdAt ≤ 86400)) ∧
    ((mockVerifyIdentity inq en es).Verified = true ↔
      ((inq.status = str "completed" ∨ inq.status = str "approved") ∧
       inq.nameFirst = en ∧ inq.nameLast = es)) := by
  intro inq en es now
  constructor
  · unfold personaVerifyIdentity
    split_ifs with h1 h2 h3
    · simp only [Bool.false_eq_true, false_iff]
      rintro ⟨hs, -, -⟩
      rcases hs with hs | hs
      · exact h1.1 hs
      · exact h1.2 hs
    · simp only [Bool.false_eq_true, false_iff]
      rintro ⟨-, hn, -⟩
      obtain ⟨hne, hmis⟩ := h2
      obtain ⟨hf, hl⟩ := hn hne
      rcases hmis with hmis | hmis
      · exact hmis hf
      · exact hmis hl
    · simp only [Bool.false_eq_true, false_iff]
      rintro ⟨-, -, ha⟩
      omega
    · simp only [true_iff]
      refine ⟨?_, ?_, by omega⟩
      · rcases not_and_or.mp h1 with hs | hs
        · exact Or.inl (not_not.mp hs)
        · exact Or.inr (not_not.mp hs)
      · intro hne
        rcases not_and_or.mp h2 with hc | hc
        · exact absurd hne hc
        · rcases not_or.mp hc with ⟨hf, hl⟩
          exact ⟨not_not.mp hf, not_not.mp hl⟩
  · unfold mockVerifyIdentity
    split_ifs with h
    · simp only [true_iff]
      exact h
    · simp only [Bool.false_eq_true, false_iff]
      exact h

/-- C7 (counterexample): the genesis block — constructed by the code
itself — is a block with a single transaction whose Merkle root is the
recomputed `tx.Hash()`, not the transaction's `ID` field (the literal
`"genesis"`). -/
theorem c7_counterexample :
    (genesisBlock tN).Transactions = [genesisTx tN] ∧
    calculateMerkleRoot [genesisTx tN] ≠ (genesisTx tN).ID := by
  exact ⟨rfl, by decide⟩

/-- C7 (amended): the Merkle root of a transaction list is the empty
string for zero transactions and `tx.Hash()` for one; it equals the
transaction's id exactly when the id was computed as its hash (as
`NewTransaction` does), which the genesis sentinel violates. -/
theorem c7_merkle_root_empty_single : ∀ tx : Transaction,
    calculateMerkleRoot [] = ([] : GoStr) ∧
    calculateMerkleRoot [tx] = txHash tx ∧
    (tx.ID = txHash tx → calculateMerkleRoot [tx] = tx.ID) := by
  intro tx
  refine ⟨rfl, calculateMerkleRoot_singleton tx, fun h => ?_⟩
  rw [calculateMerkleRoot_singleton tx, h]

/-- C7 (witness): `txA` was built by `NewTransaction`, so its id is its
hash and its singleton Merkle root equals its id. -/
theorem c7_merkle_root_empty_single_witness :
    txA.ID = txHash txA ∧ calculateMerkleRoot [txA] = txA.ID :=
  ⟨by decide, (c7_merkle_root_empty_single txA).2.2 (by decide)⟩

/-- C9 (counterexample): on the concrete singleton list `[txA]`,
`Block.CalculateMerkleRoot` (leaf = hex-decoded `tx.Hash()`, lone leaf
kept) and `CalculateMerkleRootFromTransactions` (leaf = SHA-256 of the
serialized bytes, lone leaf duplicated and re-hashed) disagree. -/
theorem c9_counterexample :
    calculateMerkleRoot [txA] ≠ calculateMerkleRootFromTransactions [txA] := by
  decide

/-- C9 (amended): the two Merkle-root computations are not equivalent:
there is a non-empty transaction list on which they disagree. -/
theorem c9_two_merkle_roots_differ :
    ∃ txs : List Transaction, txs ≠ [] ∧
      calculateMerkleRoot txs ≠ calculateMerkleRootFromTransactions txs :=
  ⟨[txA], by simp, by decide⟩

/-- C10 (confirmed): when the in-memory block list is empty, `AddBlock`
performs no prev-hash and no height comparison: with a succeeding store,
a block is accepted exactly when its structure validates and its header
hash passes the proof-of-work comparison, whatever its
`prev_block_hash` and `height` fields hold. -/
theorem c10_first_block_no_link_checks : ∀ (now : Int) (st : Chain) (b : Block),
    st.blocks = [] →
    ((addBlock now true st b).2 = none ↔
      blockValidate now b = true ∧ powValidate st.powBits b = true) := by
  intro now st b hempty
  unfold addBlock addBlockPow
  rw [hempty]
  cases hv : blockValidate now b <;> cases hp : powValidate st.powBits b <;>
    simp [hv, hp]

/-- C10 (witness): on a fresh chain, `blkWild` — whose prev hash is not
`"0"` (it links to `blkA`) and whose height is 99 — is accepted as the
first block. -/
theorem c10_first_block_no_link_checks_witness :
    blkWild.Header.PrevBlockHash ≠ str "0" ∧
    blkWild.Header.Height = 99 ∧
    (addBlock tN true initialChain blkWild).2 = none :=
  ⟨by decide, by decide,
   (c10_first_block_no_link_checks tN initialChain blkWild rfl).mpr
     ⟨by decide, by decide⟩⟩

/-- Reducing `readString` on a 4-byte length prefix followed by data. -/
theorem readLenString_cons (b0 b1 b2 b3 : Nat) (data : List Nat) :
    readLenString (b0 :: b1 :: b2 :: b3 :: data) =
      (if data.isEmpty then none
       else some (data.take (((b0 * 256 + b1) * 256 + b2) * 256 + b3) ++
                    List.replicate ((((b0 * 256 + b1) * 256 + b2) * 256 + b3) - data.length) 0,
                  data.drop (((b0 * 256 + b1) * 256 + b2) * 256 + b3))) := rfl

/-- `readString` inverts `writeString` when the length fits in `uint32`
and the reader is not yet exhausted (the field or what follows it is
non-empty). -/
theorem readLenString_lenPrefixed (s rest : GoStr) (h : s.length < 4294967296)
    (hne : s ++ rest ≠ []) :
    readLenString (lenPrefixed s ++ rest) = some (s, rest) := by
  unfold lenPrefixed u32be
  simp only [List.cons_append, List.nil_append]
  rw [readLenString_cons]
  have hn : ((s.length / 16777216 % 256 * 256 + s.length / 65536 % 256) * 256 +
      s.length / 256 % 256) * 256 + s.length % 256 = s.length := by omega
  rw [hn]
  rw [if_neg (by simpa [List.isEmpty_iff] using hne)]
  rw [List.take_left, List.drop_left]
  simp [List.length_append]

/-- Reading back a big-endian `int64` recovers any in-range value. -/
theorem readInt64_i64be (t : Int) (rest : List Nat)
    (h1 : -9223372036854775808 ≤ t) (h2 : t < 9223372036854775808) :
    readInt64 (i64be t ++ rest) = some (t, rest) := by
  unfold i64be u64be readInt64
  simp only [List.cons_append, List.nil_append]
  simp only [beToNat, List.foldl]
  have hmod : 0 ≤ t % 18446744073709551616 ∧
      t % 18446744073709551616 < 18446744073709551616 := by
    constructor
    · exact Int.emod_nonneg t (by norm_num)
    · exact Int.emod_lt_of_pos t (by norm_num)
  congr 1
  have hn : (t % 18446744073709551616).toNat < 18446744073709551616 := by omega
  set n := (t % 18446744073709551616).toNat with hdefn
  have hfold : ((((((((0 * 256 + n / 72057594037927936 % 256) * 256 +
      n / 281474976710656 % 256) * 256 + n / 1099511627776 % 256) * 256 +
      n / 4294967296 % 256) * 256 + n / 16777216 % 256) * 256 +
      n / 65536 % 256) * 256 + n / 256 % 256) * 256 + n % 256) = n := by omega
  rw [hfold]
  split
  · rename_i hlt
    have : (n : Int) = t := by omega
    simp [this]
  · rename_i hge
    have : (n : Int) - 18446744073709551616 = t := by omega
    simp [this]

/-- C8 (amended): deserializing a serialized transaction recovers every
field — id, public key, name, surname, inquiry id, the datetime at
second resolution, signature and status — for every transaction whose
string fields fit the `uint32` length prefixes, whose Unix timestamp
fits an `int64`, and whose status is non-empty; for an empty status the
trailing zero-length read hits `bytes.Reader`'s end-of-input error and
`DeserializeTransaction` fails. -/
theorem c8_serialize_roundtrip : ∀ tx : Transaction,
    tx.ID.length < 4294967296 →
    tx.PublicKey.length < 4294967296 →
    tx.Name.length < 4294967296 →
    tx.Surname.length < 4294967296 →
    tx.InquiryID.length < 4294967296 →
    tx.Signature.length < 4294967296 →
    tx.Status.length < 4294967296 →
    -9223372036854775808 ≤ tx.Datetime →
    tx.Datetime < 9223372036854775808 →
    tx.Status ≠ [] →
    deserializeTransaction (serializeTransaction tx) = some tx := by
  rintro ⟨id0, pk, nm, sn, inq, dt, sig, st⟩ h1 h2 h3 h4 h5 h6 h7 h8 h9 h10
  unfold serializeTransaction deserializeTransaction
  simp only [List.append_assoc]
  rw [readLenString_lenPrefixed _ _ h1 (by simp [lenPrefixed, u32be])]
  simp only [Option.bind_eq_bind, Option.some_bind]
  rw [readLenString_lenPrefixed _ _ h2 (by simp [lenPrefixed, u32be])]
  simp only [Option.some_bind]
  rw [readLenString_lenPrefixed _ _ h3 (by simp [lenPrefixed, u32be])]
  simp only [Option.some_bind]
  rw [readLenString_lenPrefixed _ _ h4 (by simp [lenPrefixed, u32be])]
  simp only [Option.some_bind]
  rw [readLenString_lenPrefixed _ _ h5 (by simp [i64be, u64be])]
  simp only [Option.some_bind]
  rw [readInt64_i64be _ _ h8 h9]
  simp only [Option.some_bind]
  rw [readLenString_lenPrefixed _ _ h6 (by simp [lenPrefixed, u32be])]
  simp only [Option.some_bind]
  rw [show (lenPrefixed st : List Nat) = lenPrefixed st ++ [] from (List.append_nil _).symm,
     readLenString_lenPrefixed _ _ h7 (by simpa using h10)]
  simp

/-- C8 (witness): the concrete transaction `txA` (status `"pending"`)
round-trips. -/
theorem c8_serialize_roundtrip_witness :
    deserializeTransaction (serializeTransaction txA) = some txA :=
  c8_serialize_roundtrip txA (by decide) (by decide) (by decide) (by decide)
    (by decide) (by decide) (by decide) (by decide) (by decide) (by decide)

/-- C8 (counterexample): `txES` passes `Transaction.Validate` (the
status field is never validated) yet does not round-trip — its empty
`Status` is the final field, so the deserializer's last read starts at
an exhausted reader and `bytes.Reader.Read` returns `io.EOF` even for
the zero-length buffer. -/
theorem c8_counterexample :
    txValidate tN txES = true ∧
    deserializeTransaction (serializeTransaction txES) = none := by
  constructor
  · decide
  · decide


theorem addBlockPow_pow_fail (saveOk : Bool) (st : Chain) (b : Block)
    (h : powValidate st.powBits b = false) :
    addBlockPow saveOk st b = (st, some .invalidPow) := by
  simp [addBlockPow, h]

theorem addBlockPow_rollback (st : Chain) (b : Block)
    (h : powValidate st.powBits b = true) :
    addBlockPow false st b =
      ({ st with currentHeight := u64dec b.Header.Height },
       some .saveFailed) := by
  simp [addBlockPow, h]

theorem addBlockPow_success (st : Chain) (b : Block)
    (h : powValidate st.powBits b = true) :
    addBlockPow true st b =
      ({ st with
          blocks := st.blocks ++ [b],
          currentHeight := b.Header.Height,
          miningPool := st.miningPool.filter
            (fun poolTx => !b.Transactions.any (fun minedTx => minedTx.ID == poolTx.ID)) },
       none) := by
  simp [addBlockPow, h]

theorem addBlock_invalid (now : Int) (saveOk : Bool) (st : Chain) (b : Block)
    (h : blockValidate now b = false) :
    addBlock now saveOk st b = (st, some .invalidBlock) := by
  simp [addBlock, h]

theorem addBlock_empty_valid (now : Int) (saveOk : Bool) (st : Chain) (b : Block)
    (hv : blockValidate now b = true) (hL : st.blocks.getLast? = none) :
    addBlock now saveOk st b = addBlockPow saveOk st b := by
  simp [addBlock, hv, hL]

theorem addBlock_prev_mismatch (now : Int) (saveOk : Bool) (st : Chain) (b lastB : Block)
    (hv : blockValidate now b = true) (hL : st.blocks.getLast? = some lastB)
    (hp : b.Header.PrevBlockHash ≠ blockHash lastB) :
    addBlock now saveOk st b = (st, some .invalidPrevHash) := by
  simp [addBlock, hv, hL, hp]

theorem addBlock_height_mismatch (now : Int) (saveOk : Bool) (st : Chain) (b lastB : Block)
    (hv : blockValidate now b = true) (hL : st.blocks.getLast? = some lastB)
    (hp : b.Header.PrevBlockHash = blockHash lastB)
    (hh : b.Header.Height ≠ (lastB.Header.Height + 1) % U64) :
    addBlock now saveOk st b = (st, some .invalidHeight) := by
  simp [addBlock, hv, hL, hp, hh]

theorem addBlock_linked (now : Int) (saveOk : Bool) (st : Chain) (b lastB : Block)
    (hv : blockValidate now b = true) (hL : st.blocks.getLast? = some lastB)
    (hp : b.Header.PrevBlockHash = blockHash lastB)
    (hh : b.Header.Height = (lastB.Header.Height + 1) % U64) :
    addBlock now saveOk st b = addBlockPow saveOk st b := by
  simp [addBlock, hv, hL, hp, hh]

theorem addBlockPow_state (saveOk : Bool) (st : Chain) (b : Block) :
    ((addBlockPow saveOk st b).1.blocks = st.blocks ∧
     (addBlockPow saveOk st b).1.miningPool = st.miningPool) ∨
    ((addBlockPow saveOk st b).1.blocks = st.blocks ++ [b] ∧
     (addBlockPow saveOk st b).1.miningPool = st.miningPool.filter
       (fun poolTx => !b.Transactions.any (fun minedTx => minedTx.ID == poolTx.ID))) := by
  cases hpw : powValidate st.powBits b
  · rw [addBlockPow_pow_fail _ _ _ hpw]; exact Or.inl ⟨rfl, rfl⟩
  · cases saveOk
    · rw [addBlockPow_rollback _ _ hpw]; exact Or.inl ⟨rfl, rfl⟩
    · rw [addBlockPow_success _ _ hpw]; exact Or.inr ⟨rfl, rfl⟩

theorem addBlock_state (now : Int) (saveOk : Bool) (st : Chain) (b : Block) :
    ((addBlock now saveOk st b).1.blocks = st.blocks ∧
     (addBlock now saveOk st b).1.miningPool = st.miningPool) ∨
    ((addBlock now saveOk st b).1.blocks = st.blocks ++ [b] ∧
     (addBlock now saveOk st b).1.miningPool = st.miningPool.filter
       (fun poolTx => !b.Transactions.any (fun minedTx => minedTx.ID == poolTx.ID))) := by
  cases hv : blockValidate now b
  · rw [addBlock_invalid _ _ _ _ hv]; exact Or.inl ⟨rfl, rfl⟩
  · cases hL : st.blocks.getLast? with
    | none => rw [addBlock_empty_valid _ _ _ _ hv hL]; exact addBlockPow_state _ _ _
    | some lastB =>
        by_cases hp : b.Header.PrevBlockHash = blockHash lastB
        · by_cases hh : b.Header.Height = (lastB.Header.Height + 1) % U64
          · rw [addBlock_linked _ _ _ _ _ hv hL hp hh]; exact addBlockPow_state _ _ _
          · rw [addBlock_height_mismatch _ _ _ _ _ hv hL hp hh]; exact Or.inl ⟨rfl, rfl⟩
        · rw [addBlock_prev_mismatch _ _ _ _ _ hv hL hp]; exact Or.inl ⟨rfl, rfl⟩

theorem mineStep_cases (now ts : Int) (nonce : Nat) (saveOk : Bool) (st : Chain) :
    mineStep now ts nonce saveOk st = st ∨
    ∃ latestBlock, st.blocks.getLast? = some latestBlock ∧
      mineStep now ts nonce saveOk st =
        (addBlock now saveOk st (candidateBlock st ts nonce latestBlock)).1 := by
  unfold mineStep
  cases hne : (st.miningPool.take 1000).isEmpty
  · cases hL : st.blocks.getLast? with
    | none => simp [hne, hL]
    | some latestBlock =>
        simp only [hne, Bool.false_eq_true, if_false, hL]
        cases hpw : powValidate st.powBits (candidateBlock st ts nonce latestBlock)
        · simp [hpw]
        · refine Or.inr ⟨latestBlock, rfl, ?_⟩
          simp only [hpw, if_true]
          rcases hab : addBlock now saveOk st (candidateBlock st ts nonce latestBlock)
            with ⟨st', res⟩
          cases res
          · show (if _ then adjustDifficulty st' else st') = _
            rw [show adjustDifficulty st' = st' from rfl, ite_self]
          · show st' = _
            rfl
  · simp [hne]

/-- C5 (amended): a submission whose inquiry id is already recorded on
the chain, or whose transaction id is already pooled, is rejected by
`AddTransaction`, but the handler maps every `AddTransaction` failure to
HTTP 500 (no 409 and no distinct error kinds exist). -/
theorem c5_duplicates_map_to_500 :
    ∀ (sigOk : Transaction → Bool)
      (persona : GoStr → GoStr → GoStr → Option VerificationResult)
      (now : Int) (st : Chain) (req : SubmitRequest) (res : VerificationResult),
    txValidate now (reqToTx now req) = true →
    sigOk (reqToTx now req) = true →
    persona req.inquiryID req.name req.surname = some res →
    res.Verified = true →
    (inquiryExists st (reqToTx now req).InquiryID = true ∨
      st.miningPool.any (fun poolTx => poolTx.ID == (reqToTx now req).ID) = true) →
    handleSubmitCertification sigOk persona now st req = (500, st) := by
  intro sigOk persona now st req res hval hsig hper hver hdup
  unfold handleSubmitCertification
  rw [hper]
  simp only [hval, hsig, hver, Bool.not_true, Bool.false_eq_true, if_false]
  unfold addTransaction
  simp only [hval, hsig, Bool.not_true, Bool.false_eq_true, if_false]
  rcases hdup with hinq | hpool
  · simp [hinq]
  · cases hie : inquiryExists st (reqToTx now req).InquiryID <;> simp [hie, hpool]

/-- C6 (amended): when the chain is non-empty — so the height check has
forced `b.height = last.height + 1 (mod 2^64)` — a failed store write
rolls the observable state (block list, reported height and pool) back
exactly; the claim fails only for the first block on an empty chain. -/
theorem c6_rollback_exact_on_nonempty_chain :
    ∀ (now : Int) (st : Chain) (b lastB : Block),
    st.blocks.getLast? = some lastB →
    st.currentHeight = lastB.Header.Height →
    lastB.Header.Height < U64 →
    (addBlock now false st b).1.blocks = st.blocks ∧
    (addBlock now false st b).1.currentHeight = st.currentHeight ∧
    (addBlock now false st b).1.miningPool = st.miningPool := by
  intro now st b lastB hlast hheight hlt
  cases hv : blockValidate now b
  · rw [addBlock_invalid _ _ _ _ hv]; exact ⟨rfl, rfl, rfl⟩
  · by_cases hp : b.Header.PrevBlockHash = blockHash lastB
    · by_cases hh : b.Header.Height = (lastB.Header.Height + 1) % U64
      · rw [addBlock_linked _ _ _ _ _ hv hlast hp hh]
        cases hpw : powValidate st.powBits b
        · rw [addBlockPow_pow_fail _ _ _ hpw]; exact ⟨rfl, rfl, rfl⟩
        · rw [addBlockPow_rollback _ _ hpw]
          refine ⟨rfl, ?_, rfl⟩
          show u64dec b.Header.Height = st.currentHeight
          rw [hh, hheight]
          unfold u64dec U64 at *
          split <;> omega
      · rw [addBlock_height_mismatch _ _ _ _ _ hv hlast hp hh]; exact ⟨rfl, rfl, rfl⟩
    · rw [addBlock_prev_mismatch _ _ _ _ _ hv hlast hp]; exact ⟨rfl, rfl, rfl⟩

theorem two_le_countP {α : Type} (p : α → Bool) :
    ∀ {l : List α} {a b : α}, a ∈ l → b ∈ l → a ≠ b →
      p a = true → p b = true → 2 ≤ l.countP p := by
  intro l
  induction l with
  | nil => intro a b ha _ _ _ _; exact absurd ha (List.not_mem_nil a)
  | cons x xs ih =>
      intro a b ha hb hne pa pb
      rw [List.countP_cons]
      rcases List.mem_cons.mp ha with rfl | ha'
      · rcases List.mem_cons.mp hb with rfl | hb'
        · exact absurd rfl hne
        · have h1 : 0 < xs.countP p := List.countP_pos_iff.mpr ⟨b, hb', pb⟩
          rw [pa]
          simp only [if_true]
          omega
      · rcases List.mem_cons.mp hb with rfl | hb'
        · have h1 : 0 < xs.countP p := List.countP_pos_iff.mpr ⟨a, ha', pa⟩
          rw [pb]
          simp only [if_true]
          omega
        · have h2 := ih ha' hb' hne pa pb
          omega

theorem inquiryExists_eq_false {st : Chain} {q : GoStr}
    (h : inquiryExists st q = false) :
    chainCount q st = 0 ∧ poolCount q st = 0 := by
  unfold inquiryExists at h
  rw [Bool.or_eq_false_iff] at h
  obtain ⟨h1, h2⟩ := h
  constructor
  · unfold chainCount
    rw [List.any_eq_false] at h1
    apply List.sum_eq_zero
    intro x hx
    rw [List.mem_map] at hx
    obtain ⟨blk, hblk, rfl⟩ := hx
    rw [List.countP_eq_zero]
    intro tx htx
    have := h1 blk hblk
    rw [Bool.not_eq_true, List.any_eq_false] at this
    exact fun hq => this tx htx hq
  · unfold poolCount
    rw [List.countP_eq_zero]
    rw [List.any_eq_false] at h2
    exact h2

theorem addTransaction_inv (sigOk : Transaction → Bool) (now : Int) (st : Chain)
    (tx : Transaction) (h : ∀ q, chainCount q st + poolCount q st ≤ 1) :
    ∀ q, chainCount q (addTransaction sigOk now st tx).1 +
      poolCount q (addTransaction sigOk now st tx).1 ≤ 1 := by
  intro q
  unfold addTransaction
  cases hval : txValidate now tx
  · simp only [Bool.not_false, if_true]; exact h q
  · simp only [Bool.not_true, Bool.false_eq_true, if_false]
    cases hsig : sigOk tx
    · simp only [Bool.not_false, if_true]; exact h q
    · simp only [Bool.not_true, Bool.false_eq_true, if_false]
      cases hie : inquiryExists st tx.InquiryID
      · simp only [Bool.false_eq_true, if_false]
        cases hid : st.miningPool.any (fun poolTx => poolTx.ID == tx.ID)
        · simp only [Bool.false_eq_true, if_false]
          show chainCount q st +
            (st.miningPool ++ [tx]).countP (fun t => t.InquiryID == q) ≤ 1
          rw [List.countP_append]
          obtain ⟨hc0, hp0⟩ := inquiryExists_eq_false hie
          by_cases heq : tx.InquiryID = q
          · subst heq
            have hc : chainCount tx.InquiryID st = 0 := hc0
            have hp : poolCount tx.InquiryID st = 0 := hp0
            unfold poolCount at hp
            rw [hc, hp]
            simp
          · have : ([tx].countP (fun t => t.InquiryID == q)) = 0 := by
              rw [List.countP_eq_zero]
              intro a ha
              rw [List.mem_singleton] at ha
              subst ha
              simpa using heq
            rw [this]
            exact h q
        · simp only [if_true]; exact h q
      · simp only [if_true]; exact h q

theorem mined_counts (c : Nat) (pool taken : List Transaction) (q : GoStr)
    (hsub : taken.Sublist pool)
    (hle : c + pool.countP (fun tx => tx.InquiryID == q) ≤ 1) :
    c + taken.countP (fun tx => tx.InquiryID == q) +
      (pool.filter (fun p => !taken.any (fun m => m.ID == p.ID))).countP
        (fun tx => tx.InquiryID == q) ≤ 1 := by
  by_cases hT : taken.countP (fun tx => tx.InquiryID == q) = 0
  · rw [hT]
    have hfil : (pool.filter (fun p => !taken.any (fun m => m.ID == p.ID))).countP
        (fun tx => tx.InquiryID == q) ≤ pool.countP (fun tx => tx.InquiryID == q) :=
      (List.filter_sublist pool).countP_le _
    omega
  · have h1 : 1 ≤ taken.countP (fun tx => tx.InquiryID == q) :=
      Nat.one_le_iff_ne_zero.mpr hT
    have h2 : taken.countP (fun tx => tx.InquiryID == q) ≤
        pool.countP (fun tx => tx.InquiryID == q) := hsub.countP_le _
    have h5 : (pool.filter (fun p => !taken.any (fun m => m.ID == p.ID))).countP
        (fun tx => tx.InquiryID == q) = 0 := by
      by_contra hcon
      obtain ⟨x, hxmem, hx⟩ :=
        List.countP_pos_iff.mp (Nat.pos_of_ne_zero hcon)
      have hxpool : x ∈ pool := List.mem_of_mem_filter hxmem
      have hxfil := List.of_mem_filter hxmem
      have hall : ∀ m ∈ taken, ¬(m.ID == x.ID) = true := by
        rw [show ((fun p => !taken.any (fun m => m.ID == p.ID)) x = true) =
            ((taken.any (fun m => m.ID == x.ID)) = false) from by
          simp] at hxfil
        rw [List.any_eq_false] at hxfil
        exact hxfil
      obtain ⟨m, hm, hpm⟩ := List.countP_pos_iff.mp (by omega :
        0 < taken.countP (fun tx => tx.InquiryID == q))
      have hmpool : m ∈ pool := hsub.subset hm
      have hmne : m ≠ x := by
        intro he
        subst he
        exact hall m hm (by simp)
      have htwo : 2 ≤ pool.countP (fun tx => tx.InquiryID == q) :=
        two_le_countP _ hmpool hxpool hmne hpm hx
      omega
    omega

theorem mineStep_inv (now ts : Int) (nonce : Nat) (saveOk : Bool) (st : Chain)
    (h : ∀ q, chainCount q st + poolCount q st ≤ 1) :
    ∀ q, chainCount q (mineStep now ts nonce saveOk st) +
      poolCount q (mineStep now ts nonce saveOk st) ≤ 1 := by
  intro q
  rcases mineStep_cases now ts nonce saveOk st with heq | ⟨latest, hL, heq⟩
  · rw [heq]; exact h q
  · rw [heq]
    rcases addBlock_state now saveOk st (candidateBlock st ts nonce latest) with
      ⟨hb, hm⟩ | ⟨hb, hm⟩
    · unfold chainCount poolCount
      rw [hb, hm]
      exact h q
    · have hmain := mined_counts (chainCount q st) st.miningPool
        (st.miningPool.take 1000) q (List.take_sublist _ _) (h q)
      unfold chainCount at hmain
      unfold chainCount poolCount
      rw [hb, hm, List.map_append, List.sum_append]
      simp only [List.map_cons, List.map_nil, List.sum_cons, List.sum_nil, Nat.add_zero]
      have hctx : (candidateBlock st ts nonce latest).Transactions =
          st.miningPool.take 1000 := rfl
      rw [hctx]
      omega

/-- C1 (amended): starting from a genesis-rooted chain, under
`AddTransaction` and the node's own mining step alone, every inquiry id
occurs at most once across the accepted chain and the mempool together;
the full claim fails because `AddBlock` (the sync path) never checks
inquiry uniqueness. -/
theorem c1_mined_inquiry_unique : ∀ st : Chain, ReachMine st →
    ∀ q : GoStr, chainCount q st + poolCount q st ≤ 1 := by
  intro st h
  induction h with
  | init ts =>
      intro q
      simp only [chainCount, poolCount, genesisChain, List.map_cons, List.map_nil,
        List.sum_cons, List.sum_nil, List.countP_nil]
      have htx : (genesisBlock ts).Transactions = [genesisTx ts] := rfl
      rw [htx, List.countP_cons, List.countP_nil]
      split <;> simp
  | addTx sigOk now tx h ih => exact addTransaction_inv sigOk now _ tx ih
  | mine now ts nonce saveOk h ih => exact mineStep_inv now ts nonce saveOk _ ih

/-- C1 (witness): the genesis-rooted state holding one accepted block
and one pooled transaction is reachable by the restricted operations and
satisfies the uniqueness bound — non-vacuously, as its block list is
non-empty. -/
theorem c1_mined_inquiry_unique_witness :
    ReachMine (addTransaction (fun _ => true) tN (genesisChain tN) txA).1 ∧
    (genesisChain tN).blocks ≠ [] ∧
    ∀ q, chainCount q (addTransaction (fun _ => true) tN (genesisChain tN) txA).1 +
      poolCount q (addTransaction (fun _ => true) tN (genesisChain tN) txA).1 ≤ 1 :=
  ⟨ReachMine.addTx _ tN txA (ReachMine.init tN),
   by simp [genesisChain],
   c1_mined_inquiry_unique _ (ReachMine.addTx _ tN txA (ReachMine.init tN))⟩

/-- C1 (counterexample): the state `stAB` is reachable through two
`AddBlock` calls (exactly what synchronization does with peer blocks),
and the inquiry id `"inq-1"` then occurs in two accepted blocks. -/
theorem c1_counterexample :
    ReachFull stAB ∧
    2 ≤ stAB.blocks.countP
      (fun b => b.Transactions.any (fun tx => tx.InquiryID == str "inq-1")) := by
  constructor
  · exact ReachFull.acceptBlock tN true blkB
      (ReachFull.acceptBlock tN true blkA ReachFull.init)
  · decide

/-- C5 (witness): the concrete duplicate-inquiry resubmission against
`stA` and the duplicate-id submission against `stPoolClash` both return
HTTP 500 with the state unchanged. -/
theorem c5_duplicates_map_to_500_witness :
    handleSubmitCertification (fun _ => true) personaOK tN stA reqDup = (500, stA) ∧
    handleSubmitCertification (fun _ => true) personaOK tN stPoolClash reqDup =
      (500, stPoolClash) := by
  constructor
  · exact c5_duplicates_map_to_500 _ personaOK tN stA reqDup
      { Status := str "completed", FirstName := str "Carol",
        LastName := str "Jones", CreatedAt := tN, Verified := true }
      (by decide) rfl rfl rfl (Or.inl (by decide))
  · exact c5_duplicates_map_to_500 _ personaOK tN stPoolClash reqDup
      { Status := str "completed", FirstName := str "Carol",
        LastName := str "Jones", CreatedAt := tN, Verified := true }
      (by decide) rfl rfl rfl (Or.inr (by decide))

/-- C5 (counterexample): resubmitting the already-recorded inquiry
`"inq-1"` yields HTTP 500, not the claimed 409. -/
theorem c5_counterexample :
    (handleSubmitCertification (fun _ => true) personaOK tN stA reqDup).1 = 500 ∧
    (500 : Nat) ≠ 409 := ⟨by decide, by decide⟩

/-- C6 (witness): a failed store write after the valid successor `blkB`
of the one-block chain `stA` leaves the block list, height and pool as
they were. -/
theorem c6_rollback_exact_on_nonempty_chain_witness :
    (addBlock tN false stA blkB).1.blocks = stA.blocks ∧
    (addBlock tN false stA blkB).1.currentHeight = stA.currentHeight ∧
    (addBlock tN false stA blkB).1.miningPool = stA.miningPool :=
  c6_rollback_exact_on_nonempty_chain tN stA blkB blkA (by decide) (by decide)
    (by decide)

/-- C6 (counterexample): a failed store write of the first block on an
empty chain (height 0, previously reported height 0) truncates the list
but leaves `currentHeight = 2^64 − 1` — the observable state does not
equal the state before the call. -/
theorem c6_counterexample :
    addBlock tN false initialChain blkA =
      ({ blocks := [], currentHeight := 18446744073709551615, miningPool := [],
         difficulty := 16, powBits := 16 }, some BlockErr.saveFailed) ∧
    initialChain.currentHeight = 0 ∧
    (18446744073709551615 : Nat) ≠ 0 :=
  ⟨by decide, rfl, by decide⟩
